import Mathlib

/-!
Verification of the cinema ticket booking core: the seat registry with its
command history engine (SeatSelection), and the booking lifecycle state
machine (BookingState). Shallow embedding: the mutable TypeScript classes
become immutable Lean structures with explicit state passing; the JS Map
of seats becomes an association list with JS Map set semantics (overwrite
existing key, else append); the JS Set of selected seat codes becomes an
insertion ordered duplicate free list; JS numbers used for money become Rat.
Timestamps and console logging are environmental effects and are omitted;
the transaction id, whose source value embeds a wall clock timestamp, is
modelled by the fixed placeholder string TXN (the claims only ever need
that a transaction reference was recorded).
-/

namespace TiketingBioskop

/-- Seat status enum from models/Seat. -/
inductive SeatStatus where
  | available
  | selected
  | booked
  | unavailable
deriving DecidableEq

/-- Seat type enum from models/Seat. -/
inductive SeatType where
  | regular
  | vip
  | couple
  | wheelchair
deriving DecidableEq

/-- SeatImpl from models/Seat. -/
structure Seat where
  id : String
  row : String
  number : Nat
  type : SeatType
  status : SeatStatus
  price : Rat
deriving DecidableEq

/-- First match lookup in the association list backing the JS Map of seats. -/
def lookupSeat : List (String × Seat) → String → Option Seat
  | [], _ => none
  | p :: rest, code => if p.1 = code then some p.2 else lookupSeat rest code

/-- Rewrite every entry of the seat list by a key dependent function.
Mutation of a seat object held in the JS Map is embedded as rewriting the
entry with that key. -/
def mapSeats (f : String → Seat → Seat) (l : List (String × Seat)) :
    List (String × Seat) :=
  l.map (fun p => (p.1, f p.1 p.2))

/-- JS Map set: overwrite the value when the key is present, else append. -/
def setSeat (l : List (String × Seat)) (code : String) (s : Seat) :
    List (String × Seat) :=
  if (lookupSeat l code).isSome then
    mapSeats (fun k v => if k = code then s else v) l
  else l ++ [(code, s)]

/-- Receiver class SeatManager: a seat map and the selected seat code set. -/
structure SeatManager where
  seats : List (String × Seat)
  selectedSeats : List String
deriving DecidableEq

/-- The SeatManager constructor: both containers start empty. -/
def SeatManager.empty : SeatManager := ⟨[], []⟩

/-- SeatManager.getSeat. -/
def SeatManager.getSeat (m : SeatManager) (code : String) : Option Seat :=
  lookupSeat m.seats code

/-- JS Set add: append when absent. -/
def addSelected (sel : List String) (code : String) : List String :=
  if code ∈ sel then sel else sel ++ [code]

/-- JS Set delete: remove the occurrence of the code. -/
def removeSelected (sel : List String) (code : String) : List String :=
  sel.filter (fun x => x != code)

/-- SeatManager.selectSeat: only an AVAILABLE seat can become SELECTED;
a missing seat or any other status yields false with no mutation. -/
def SeatManager.selectSeat (m : SeatManager) (code : String) :
    SeatManager × Bool :=
  match m.getSeat code with
  | none => (m, false)
  | some seat =>
    if seat.status ≠ SeatStatus.available then (m, false)
    else
      ({ seats := mapSeats
            (fun k v => if k = code then { v with status := SeatStatus.selected } else v)
            m.seats,
         selectedSeats := addSelected m.selectedSeats code }, true)

/-- SeatManager.deselectSeat: only a SELECTED seat can go back to AVAILABLE. -/
def SeatManager.deselectSeat (m : SeatManager) (code : String) :
    SeatManager × Bool :=
  match m.getSeat code with
  | none => (m, false)
  | some seat =>
    if seat.status ≠ SeatStatus.selected then (m, false)
    else
      ({ seats := mapSeats
            (fun k v => if k = code then { v with status := SeatStatus.available } else v)
            m.seats,
         selectedSeats := removeSelected m.selectedSeats code }, true)

/-- SeatManager.getSelectedSeats: iterate the selected code set, skipping
codes with no seat in the map. -/
def SeatManager.getSelectedSeats (m : SeatManager) : List Seat :=
  m.selectedSeats.filterMap (fun code => m.getSeat code)

/-- SeatManager.getSelectedSeatsTotal: reduce over the selected seats. -/
def SeatManager.getSelectedSeatsTotal (m : SeatManager) : Rat :=
  m.getSelectedSeats.foldl (fun sum seat => sum + seat.price) 0

/-- SeatManager.confirmBooking: with nothing selected return false; else
mark every selected seat BOOKED and clear the selected set. -/
def SeatManager.confirmBooking (m : SeatManager) : SeatManager × Bool :=
  if m.selectedSeats.isEmpty then (m, false)
  else
    ({ seats := mapSeats
          (fun k v => if k ∈ m.selectedSeats then { v with status := SeatStatus.booked } else v)
          m.seats,
       selectedSeats := [] }, true)

/-- Row letters used by initializeSeats. -/
def rowLabels : String := "ABCDEFGHIJKLMNOPQRSTUVWXYZ"

/-- One seat record built by the initializeSeats loop body; `rnd` is the
injected oracle standing for the Math.random pre-booking draw. -/
def initSeatPair (showtimeId : String) (rows : Nat) (basePrice : Rat)
    (rnd : Nat → Nat → Bool) (r s : Nat) : String × Seat :=
  let rowLabel := String.singleton (rowLabels.toList.getD r 'A')
  let seatCode := rowLabel ++ toString s
  let seatType := if r + 2 ≥ rows then SeatType.vip else SeatType.regular
  let price := if seatType = SeatType.vip then basePrice * (3 / 2) else basePrice
  let st := if rnd r s then SeatStatus.booked else SeatStatus.available
  (seatCode,
    { id := showtimeId ++ "-" ++ seatCode, row := rowLabel, number := s,
      type := seatType, status := st, price := price })

/-- SeatManager.initializeSeats: nested loops over rows and seats per row,
inserting each built seat into the map. -/
def SeatManager.initializeSeats (m : SeatManager) (showtimeId : String)
    (rows seatsPerRow : Nat) (basePrice : Rat) (rnd : Nat → Nat → Bool) :
    SeatManager :=
  let pairs := ((List.range rows).map (fun r =>
    (List.range seatsPerRow).map (fun i =>
      initSeatPair showtimeId rows basePrice rnd r (i + 1)))).flatten
  { m with seats := pairs.foldl (fun acc p => setSeat acc p.1 p.2) m.seats }

/-- The three concrete command classes, with their mutable fields
(executed flag; for the batch, the successfully selected codes) made
explicit constructor arguments. Timestamps omitted. -/
inductive SeatCommand where
  | selectOne (seatCode : String) (executed : Bool)
  | deselectOne (seatCode : String) (executed : Bool)
  | selectMany (seatCodes : List String) (successfullyCodes : List String) (executed : Bool)
deriving DecidableEq

/-- The loop inside SelectMultipleSeatsCommand.execute: try every code in
order, returning the final registry and the codes that actually succeeded,
in selection order. -/
def selectManyLoop (m : SeatManager) : List String → SeatManager × List String
  | [] => (m, [])
  | code :: rest =>
    let r := m.selectSeat code
    let res := selectManyLoop r.1 rest
    (res.1, if r.2 then code :: res.2 else res.2)

/-- The loop inside SelectMultipleSeatsCommand.undo: deselect the given
codes in order, ignoring each boolean result. -/
def deselectLoop (m : SeatManager) : List String → SeatManager
  | [] => m
  | code :: rest => deselectLoop (m.deselectSeat code).1 rest

/-- SeatCommand.execute of each concrete command. An already executed
command refuses with false. The single seat commands mark themselves
executed only on success; the batch always marks itself executed and its
result flag reports whether the full requested count matched. -/
def SeatCommand.execute : SeatCommand → SeatManager → SeatCommand × SeatManager × Bool
  | .selectOne code ex, m =>
    if ex then (.selectOne code ex, m, false)
    else
      let r := m.selectSeat code
      (.selectOne code r.2, r.1, r.2)
  | .deselectOne code ex, m =>
    if ex then (.deselectOne code ex, m, false)
    else
      let r := m.deselectSeat code
      (.deselectOne code r.2, r.1, r.2)
  | .selectMany codes sc ex, m =>
    if ex then (.selectMany codes sc ex, m, false)
    else
      let r := selectManyLoop m codes
      (.selectMany codes r.2 true, r.1, decide (r.2.length = codes.length))

/-- SeatCommand.undo of each concrete command. A command that is not
executed refuses with false. The batch deselects its successful subset in
reverse order and always reports true. -/
def SeatCommand.undo : SeatCommand → SeatManager → SeatCommand × SeatManager × Bool
  | .selectOne code ex, m =>
    if ex then
      let r := m.deselectSeat code
      (.selectOne code (!r.2), r.1, r.2)
    else (.selectOne code ex, m, false)
  | .deselectOne code ex, m =>
    if ex then
      let r := m.selectSeat code
      (.deselectOne code (!r.2), r.1, r.2)
    else (.deselectOne code ex, m, false)
  | .selectMany codes sc ex, m =>
    if ex then (.selectMany codes [] false, deselectLoop m sc.reverse, true)
    else (.selectMany codes sc ex, m, false)

/-- Invoker class SeatSelectionInvoker. Both stacks are kept newest first:
the head is the top of the stack, so the JS push/pop at the array end is
cons/uncons at the head and the JS shift of the oldest entry drops the
last element. -/
structure SeatSelectionInvoker where
  undoStack : List SeatCommand
  redoStack : List SeatCommand
  maxHistorySize : Nat
deriving DecidableEq

/-- SeatSelectionInvoker.executeCommand: run the command; only on success
push it onto the undo stack, evict the oldest entry when the bound is
exceeded, and clear the redo stack. -/
def SeatSelectionInvoker.executeCommand (inv : SeatSelectionInvoker)
    (m : SeatManager) (c : SeatCommand) :
    SeatSelectionInvoker × SeatManager × Bool :=
  let r := c.execute m
  if r.2.2 then
    let us := r.1 :: inv.undoStack
    let us2 := if inv.maxHistorySize < us.length then us.dropLast else us
    ({ inv with undoStack := us2, redoStack := [] }, r.2.1, true)
  else (inv, r.2.1, false)

/-- SeatSelectionInvoker.undo: pop the newest command and reverse it; on
reverse success push it onto the redo stack, otherwise drop it. -/
def SeatSelectionInvoker.undo (inv : SeatSelectionInvoker) (m : SeatManager) :
    SeatSelectionInvoker × SeatManager × Bool :=
  match inv.undoStack with
  | [] => (inv, m, false)
  | c :: rest =>
    let r := c.undo m
    if r.2.2 then
      ({ inv with undoStack := rest, redoStack := r.1 :: inv.redoStack }, r.2.1, true)
    else
      ({ inv with undoStack := rest }, r.2.1, false)

/-- SeatSelectionInvoker.redo: pop the newest undone command and re run
its apply step; on success push it back onto the undo stack. -/
def SeatSelectionInvoker.redo (inv : SeatSelectionInvoker) (m : SeatManager) :
    SeatSelectionInvoker × SeatManager × Bool :=
  match inv.redoStack with
  | [] => (inv, m, false)
  | c :: rest =>
    let r := c.execute m
    if r.2.2 then
      ({ inv with redoStack := rest, undoStack := r.1 :: inv.undoStack }, r.2.1, true)
    else
      ({ inv with redoStack := rest }, r.2.1, false)

/-- Run one fresh single seat SelectSeatCommand per code through
executeCommand, as SeatSelectionController.selectSeat does repeatedly; the
boolean is the conjunction of all the returned flags. -/
def runSelects (inv : SeatSelectionInvoker) (m : SeatManager) :
    List String → SeatSelectionInvoker × SeatManager × Bool
  | [] => (inv, m, true)
  | code :: rest =>
    let r := inv.executeCommand m (SeatCommand.selectOne code false)
    let r2 := runSelects r.1 r.2.1 rest
    (r2.1, r2.2.1, r.2.2 && r2.2.2)

/-- Repeatedly call SeatSelectionInvoker.undo. -/
def runUndos (inv : SeatSelectionInvoker) (m : SeatManager) :
    Nat → SeatSelectionInvoker × SeatManager
  | 0 => (inv, m)
  | n + 1 =>
    let r := inv.undo m
    runUndos r.1 r.2.1 n

/-- One SeatManager mutator call, for quantifying over operation
sequences. -/
inductive SMOp where
  | select (code : String)
  | deselect (code : String)
  | confirm

/-- Apply one SeatManager operation, keeping the resulting registry. -/
def SMOp.run (op : SMOp) (m : SeatManager) : SeatManager :=
  match op with
  | .select code => (m.selectSeat code).1
  | .deselect code => (m.deselectSeat code).1
  | .confirm => m.confirmBooking.1

/-- Apply a sequence of SeatManager operations in order. -/
def runSMOps (ops : List SMOp) (m : SeatManager) : SeatManager :=
  ops.foldl (fun acc op => op.run acc) m

/-- The status of the seat stored under a code, when present. -/
def SeatManager.statusOf (m : SeatManager) (code : String) : Option SeatStatus :=
  (m.getSeat code).map Seat.status

/-- The sum of the prices of exactly the seats whose stored status is
selected, in map order: the specification side of the total query. -/
def selectedStatusTotal (m : SeatManager) : Rat :=
  ((m.seats.filter (fun p => decide (p.2.status = SeatStatus.selected))).map
    (fun p => p.2.price)).sum

/-- Well formedness of a SeatManager: map keys are duplicate free, the
selected code set is duplicate free, every code in the selected set names
a stored seat with status selected, and every stored seat with status
selected has its code in the selected set. Holds after initialization and
is preserved by every operation. -/
def SMWF (m : SeatManager) : Prop :=
  (m.seats.map Prod.fst).Nodup ∧ m.selectedSeats.Nodup ∧
  (∀ code ∈ m.selectedSeats, m.statusOf code = some SeatStatus.selected) ∧
  (∀ p ∈ m.seats, p.2.status = SeatStatus.selected → p.1 ∈ m.selectedSeats)

instance (m : SeatManager) : Decidable (SMWF m) := by
  unfold SMWF
  infer_instance

/-- The six concrete BookingState classes, as an enumerated state. -/
inductive BState where
  | draft
  | pending
  | paid
  | confirmed
  | completed
  | cancelled
deriving DecidableEq

/-- getName of each concrete state class. -/
def BState.getName : BState → String
  | .draft => "Draft"
  | .pending => "Pending"
  | .paid => "Paid"
  | .confirmed => "Confirmed"
  | .completed => "Completed"
  | .cancelled => "Cancelled"

/-- canModify of each concrete state class: only DraftState says true. -/
def BState.canModify : BState → Bool
  | .draft => true
  | _ => false

/-- StateHistoryEntry, without the timestamp. -/
structure StateHistoryEntry where
  fromState : String
  toState : String
deriving DecidableEq

/-- BookingContext, without the generated booking id and the two Date
fields. -/
structure BookingContext where
  customerName : String
  movieTitle : String
  seats : List String
  totalAmount : Rat
  paidAmount : Rat
  transactionId : Option String
  state : BState
  stateHistory : List StateHistoryEntry
deriving DecidableEq

/-- The BookingContext constructor: empty booking in DraftState, with the
initial log entry written by logStateChange with previous label Initial. -/
def mkBookingContext (customerName movieTitle : String) : BookingContext :=
  { customerName := customerName, movieTitle := movieTitle, seats := [],
    totalAmount := 0, paidAmount := 0, transactionId := none,
    state := BState.draft,
    stateHistory := [{ fromState := "Initial", toState := "Draft" }] }

/-- BookingContext.setState: swap the state object and append a log entry
from the previous state name to the new one. -/
def BookingContext.setState (b : BookingContext) (s : BState) : BookingContext :=
  { b with
      state := s,
      stateHistory := b.stateHistory ++
        [{ fromState := b.state.getName, toState := s.getName }] }

/-- BookingContext.addSeat: the current state object only logs, in every
state; the context then appends the line item exactly when canModify. -/
def BookingContext.addSeat (b : BookingContext) (seatCode : String) (price : Rat) :
    BookingContext :=
  if b.state.canModify then
    { b with seats := b.seats ++ [seatCode], totalAmount := b.totalAmount + price }
  else b

/-- BookingContext.proceedToPayment: only DraftState moves to Pending, and
only with at least one seat; every other state just logs. -/
def BookingContext.proceedToPayment (b : BookingContext) : BookingContext :=
  match b.state with
  | .draft => if b.seats.isEmpty then b else b.setState BState.pending
  | _ => b

/-- BookingContext.pay: only PendingState reacts. An amount below the
running total is refused with no mutation; otherwise the paid amount and a
transaction reference are recorded and the state becomes Paid. -/
def BookingContext.pay (b : BookingContext) (amount : Rat) : BookingContext :=
  match b.state with
  | .pending =>
    if amount < b.totalAmount then b
    else
      ({ b with paidAmount := amount, transactionId := some "TXN" }).setState BState.paid
  | _ => b

/-- BookingContext.confirm: only PaidState moves to Confirmed. -/
def BookingContext.confirm (b : BookingContext) : BookingContext :=
  match b.state with
  | .paid => b.setState BState.confirmed
  | _ => b

/-- BookingContext.complete: only ConfirmedState moves to Completed. -/
def BookingContext.complete (b : BookingContext) : BookingContext :=
  match b.state with
  | .confirmed => b.setState BState.completed
  | _ => b

/-- BookingContext.cancel: DraftState and PendingState move to Cancelled;
every other state just logs. -/
def BookingContext.cancel (b : BookingContext) : BookingContext :=
  match b.state with
  | .draft => b.setState BState.cancelled
  | .pending => b.setState BState.cancelled
  | _ => b

/-- BookingContext.refund: PaidState and ConfirmedState move to Cancelled
(logging a refund amount, computed below); every other state just logs. -/
def BookingContext.refund (b : BookingContext) : BookingContext :=
  match b.state with
  | .paid => b.setState BState.cancelled
  | .confirmed => b.setState BState.cancelled
  | _ => b

/-- Math.round on an exact rational: round half toward positive infinity. -/
def jsRound (q : Rat) : Int := Int.floor (q + 1 / 2)

/-- The refund amount logged by ConfirmedState.refund:
Math.round(paidAmount * 0.8). -/
def confirmedRefundAmount (paidAmount : Rat) : Int :=
  jsRound (paidAmount * (4 / 5))

/-- The refund amount logged by PaidState.refund: the full paid amount. -/
def paidRefundAmount (paidAmount : Rat) : Rat := paidAmount

/-- One BookingContext delegation call, for quantifying over operation
sequences. -/
inductive BookingOp where
  | addSeat (seatCode : String) (price : Rat)
  | proceedToPayment
  | pay (amount : Rat)
  | confirm
  | complete
  | cancel
  | refund

/-- Apply one booking operation. -/
def BookingOp.run (op : BookingOp) (b : BookingContext) : BookingContext :=
  match op with
  | .addSeat c p => b.addSeat c p
  | .proceedToPayment => b.proceedToPayment
  | .pay a => b.pay a
  | .confirm => b.confirm
  | .complete => b.complete
  | .cancel => b.cancel
  | .refund => b.refund

/-- Apply a sequence of booking operations in order. -/
def runBookingOps (ops : List BookingOp) (b : BookingContext) : BookingContext :=
  ops.foldl (fun acc op => op.run acc) b

/-- Adjacent entries of the state transition log are connected: each
entry after the first starts from the state the previous entry reached. -/
def chainConnected : List StateHistoryEntry → Bool
  | [] => true
  | [_] => true
  | e1 :: e2 :: rest => (e2.fromState == e1.toState) && chainConnected (e2 :: rest)

/-- The state transition log invariant: it starts with the construction
entry Initial to Draft, adjacent entries are connected, and the last entry
ends at the current state name. -/
def historyWF (b : BookingContext) : Prop :=
  b.stateHistory.head? = some { fromState := "Initial", toState := "Draft" } ∧
  chainConnected b.stateHistory = true ∧
  b.stateHistory.getLast?.map StateHistoryEntry.toState = some b.state.getName

/-! Association list lemmas for the seat map. -/

theorem lookupSeat_mapSeats (f : String → Seat → Seat) (l : List (String × Seat))
    (code : String) :
    lookupSeat (mapSeats f l) code = (lookupSeat l code).map (f code) := by
  induction l with
  | nil => rfl
  | cons p rest ih =>
    simp only [mapSeats, List.map_cons, lookupSeat]
    by_cases h : p.1 = code
    · subst h
      simp
    · simp only [h, if_false]
      exact ih

theorem keys_mapSeats (f : String → Seat → Seat) (l : List (String × Seat)) :
    (mapSeats f l).map Prod.fst = l.map Prod.fst := by
  simp only [mapSeats, List.map_map]
  exact List.map_congr_left (fun p _ => rfl)

theorem lookupSeat_eq_none (l : List (String × Seat)) (code : String) :
    lookupSeat l code = none ↔ code ∉ l.map Prod.fst := by
  induction l with
  | nil => simp [lookupSeat]
  | cons p rest ih =>
    by_cases h : p.1 = code
    · simp [lookupSeat, h]
    · simp only [lookupSeat, h, if_false, List.map_cons, List.mem_cons, ih]
      have hne : ¬code = p.1 := fun he => h he.symm
      tauto

theorem mem_of_lookupSeat {l : List (String × Seat)} {code : String} {s : Seat}
    (h : lookupSeat l code = some s) : (code, s) ∈ l := by
  induction l with
  | nil => simp [lookupSeat] at h
  | cons p rest ih =>
    obtain ⟨k, v⟩ := p
    simp only [lookupSeat] at h
    by_cases hc : k = code
    · simp only [hc, if_true, Option.some_inj] at h
      rw [← hc, ← h]
      exact List.mem_cons_self _ _
    · simp only [hc, if_false] at h
      exact List.mem_cons_of_mem _ (ih h)

theorem lookupSeat_of_mem_nodup {l : List (String × Seat)} {code : String} {s : Seat}
    (hn : (l.map Prod.fst).Nodup) (hm : (code, s) ∈ l) : lookupSeat l code = some s := by
  induction l with
  | nil => simp at hm
  | cons p rest ih =>
    simp only [List.map_cons, List.nodup_cons] at hn
    rcases List.mem_cons.mp hm with he | hm2
    · rw [← he]
      simp [lookupSeat]
    · have hc : p.1 ≠ code := by
        intro he2
        exact hn.1 (he2 ▸ (List.mem_map_of_mem Prod.fst hm2))
      simp only [lookupSeat, hc, if_false]
      exact ih hn.2 hm2

theorem mapSeats_id_of (f : String → Seat → Seat) (l : List (String × Seat))
    (h : ∀ p ∈ l, f p.1 p.2 = p.2) : mapSeats f l = l := by
  induction l with
  | nil => rfl
  | cons p rest ih =>
    simp only [mapSeats, List.map_cons] at *
    rw [h p (List.mem_cons_self p rest)]
    rw [ih (fun q hq => h q (List.mem_cons_of_mem p hq))]

theorem mapSeats_mapSeats (f g : String → Seat → Seat) (l : List (String × Seat)) :
    mapSeats g (mapSeats f l) = mapSeats (fun k v => g k (f k v)) l := by
  simp only [mapSeats, List.map_map]
  exact List.map_congr_left (fun p _ => rfl)

theorem keys_setSeat_nodup (l : List (String × Seat)) (code : String) (s : Seat)
    (h : (l.map Prod.fst).Nodup) : ((setSeat l code s).map Prod.fst).Nodup := by
  unfold setSeat
  by_cases hs : (lookupSeat l code).isSome
  · simp only [hs, if_true]
    rw [keys_mapSeats]
    exact h
  · simp only [hs, if_false]
    have hnone : lookupSeat l code = none := by
      cases hl : lookupSeat l code with
      | none => rfl
      | some v => rw [hl] at hs; simp at hs
    have hnm : code ∉ l.map Prod.fst := (lookupSeat_eq_none l code).mp hnone
    simpa using h.concat hnm

theorem mem_setSeat {l : List (String × Seat)} {code : String} {s : Seat} {p : String × Seat}
    (h : p ∈ setSeat l code s) : p ∈ l ∨ p.2 = s := by
  unfold setSeat at h
  split at h
  · simp only [mapSeats, List.mem_map] at h
    obtain ⟨q, hq, he⟩ := h
    by_cases hc : q.1 = code
    · right
      rw [← he]
      simp [hc]
    · left
      rw [← he]
      simp only [hc, if_false]
      exact hq
  · rcases List.mem_append.mp h with h1 | h2
    · exact Or.inl h1
    · right
      rw [List.mem_singleton.mp h2]

/-! Characterizations of the SeatManager mutators. -/

theorem selectSeat_success_iff (m : SeatManager) (code : String) :
    (m.selectSeat code).2 = true ↔ m.statusOf code = some SeatStatus.available := by
  unfold SeatManager.selectSeat SeatManager.statusOf
  cases hg : m.getSeat code with
  | none => simp
  | some s =>
    by_cases hs : s.status = SeatStatus.available
    · simp [hs]
    · simp [hs]

theorem selectSeat_fail_eq {m : SeatManager} {code : String}
    (h : (m.selectSeat code).2 = false) : (m.selectSeat code).1 = m := by
  unfold SeatManager.selectSeat at h ⊢
  cases hg : m.getSeat code with
  | none => simp
  | some s =>
    rw [hg] at h
    by_cases hs : s.status = SeatStatus.available
    · simp [hs] at h
    · simp [hs]

theorem selectSeat_success_eq {m : SeatManager} {code : String} {s : Seat}
    (hg : m.getSeat code = some s) (hs : s.status = SeatStatus.available) :
    m.selectSeat code =
      ({ seats := mapSeats
            (fun k v => if k = code then { v with status := SeatStatus.selected } else v)
            m.seats,
         selectedSeats := addSelected m.selectedSeats code }, true) := by
  unfold SeatManager.selectSeat
  rw [hg]
  simp [hs]

theorem deselectSeat_success_eq {m : SeatManager} {code : String} {s : Seat}
    (hg : m.getSeat code = some s) (hs : s.status = SeatStatus.selected) :
    m.deselectSeat code =
      ({ seats := mapSeats
            (fun k v => if k = code then { v with status := SeatStatus.available } else v)
            m.seats,
         selectedSeats := removeSelected m.selectedSeats code }, true) := by
  unfold SeatManager.deselectSeat
  rw [hg]
  simp [hs]

theorem deselectSeat_fail_eq {m : SeatManager} {code : String}
    (h : (m.deselectSeat code).2 = false) : (m.deselectSeat code).1 = m := by
  unfold SeatManager.deselectSeat at h ⊢
  cases hg : m.getSeat code with
  | none => simp
  | some s =>
    rw [hg] at h
    by_cases hs : s.status = SeatStatus.selected
    · simp [hs] at h
    · simp [hs]

/-! Well formedness is established by initialization and preserved by the
three mutators. -/

theorem SMWF.mem_iff {m : SeatManager} (h : SMWF m) (code : String) :
    code ∈ m.selectedSeats ↔ m.statusOf code = some SeatStatus.selected := by
  obtain ⟨h1, h2, h3, h4⟩ := h
  constructor
  · exact h3 code
  · intro hst
    unfold SeatManager.statusOf at hst
    cases hg : m.getSeat code with
    | none => rw [hg] at hst; simp at hst
    | some s =>
      rw [hg] at hst
      simp only [Option.map_some', Option.some_inj] at hst
      exact h4 (code, s) (mem_of_lookupSeat hg) hst


theorem SMWF.selectSeat {m : SeatManager} (h : SMWF m) (code : String) :
    SMWF (m.selectSeat code).1 := by
  cases hr : (m.selectSeat code).2 with
  | false => rw [selectSeat_fail_eq hr]; exact h
  | true =>
    have hst := (selectSeat_success_iff m code).mp hr
    unfold SeatManager.statusOf at hst
    cases hg : m.getSeat code with
    | none => rw [hg] at hst; simp at hst
    | some s =>
      rw [hg] at hst
      simp only [Option.map_some', Option.some_inj] at hst
      obtain ⟨h1, h2, h3, h4⟩ := h
      have hnm : code ∉ m.selectedSeats := by
        intro hmem
        have hx := h3 code hmem
        unfold SeatManager.statusOf at hx
        rw [hg] at hx
        simp only [Option.map_some', Option.some_inj] at hx
        rw [hst] at hx
        exact SeatStatus.noConfusion hx
      have hadd : addSelected m.selectedSeats code = m.selectedSeats ++ [code] := by
        unfold addSelected
        simp [hnm]
      have key : (m.selectSeat code).1 =
          { seats := mapSeats
              (fun k v => if k = code then { v with status := SeatStatus.selected } else v)
              m.seats,
            selectedSeats := addSelected m.selectedSeats code } := by
        rw [selectSeat_success_eq hg hst]
      rw [key]
      unfold SMWF
      dsimp only
      refine ⟨?_, ?_, ?_, ?_⟩
      · rw [keys_mapSeats]
        exact h1
      · rw [hadd]
        simpa using h2.concat hnm
      · intro x hx
        rw [hadd] at hx
        unfold SeatManager.statusOf SeatManager.getSeat
        dsimp only
        rw [lookupSeat_mapSeats]
        rcases List.mem_append.mp hx with hx1 | hx2
        · have hsel := h3 x hx1
          unfold SeatManager.statusOf SeatManager.getSeat at hsel
          have hne : x ≠ code := fun he => hnm (he ▸ hx1)
          cases hlx : lookupSeat m.seats x with
          | none => rw [hlx] at hsel; simp at hsel
          | some v =>
            rw [hlx] at hsel
            simp only [Option.map_some', Option.some_inj] at hsel
            simp [hne, hsel]
        · have hx3 : x = code := List.mem_singleton.mp hx2
          subst hx3
          unfold SeatManager.getSeat at hg
          rw [hg]
          simp
      · intro p hp hpst
        simp only [mapSeats, List.mem_map] at hp
        obtain ⟨q, hq, he⟩ := hp
        rw [hadd]
        by_cases hc : q.1 = code
        · rw [← he]
          simp [hc]
        · rw [← he] at hpst ⊢
          simp only [hc, if_false] at hpst ⊢
          exact List.mem_append_left _ (h4 q hq hpst)

theorem SMWF.deselectSeat {m : SeatManager} (h : SMWF m) (code : String) :
    SMWF (m.deselectSeat code).1 := by
  cases hr : (m.deselectSeat code).2 with
  | false => rw [deselectSeat_fail_eq hr]; exact h
  | true =>
    obtain ⟨h1, h2, h3, h4⟩ := h
    unfold SeatManager.deselectSeat at hr
    cases hg : m.getSeat code with
    | none => rw [hg] at hr; simp at hr
    | some s =>
      rw [hg] at hr
      by_cases hs : s.status = SeatStatus.selected
      · have key : (m.deselectSeat code).1 =
            { seats := mapSeats
                (fun k v => if k = code then { v with status := SeatStatus.available } else v)
                m.seats,
              selectedSeats := removeSelected m.selectedSeats code } := by
          rw [deselectSeat_success_eq hg hs]
        rw [key]
        unfold SMWF
        dsimp only
        refine ⟨?_, ?_, ?_, ?_⟩
        · rw [keys_mapSeats]
          exact h1
        · exact h2.filter _
        · intro x hx
          unfold removeSelected at hx
          have hx2 := List.mem_filter.mp hx
          have hne : x ≠ code := by
            have hb := hx2.2
            simpa using hb
          have hsel := h3 x hx2.1
          unfold SeatManager.statusOf SeatManager.getSeat at hsel ⊢
          dsimp only
          rw [lookupSeat_mapSeats]
          cases hlx : lookupSeat m.seats x with
          | none => rw [hlx] at hsel; simp at hsel
          | some v =>
            rw [hlx] at hsel
            simp only [Option.map_some', Option.some_inj] at hsel
            simp [hne, hsel]
        · intro p hp hpst
          simp only [mapSeats, List.mem_map] at hp
          obtain ⟨q, hq, he⟩ := hp
          by_cases hc : q.1 = code
          · rw [← he] at hpst
            simp only [hc, if_true] at hpst
            exact absurd hpst (by simp)
          · rw [← he] at hpst ⊢
            simp only [hc, if_false] at hpst
            unfold removeSelected
            simp only [List.mem_filter]
            refine ⟨h4 q hq hpst, ?_⟩
            simpa using hc
      · simp [hs] at hr

theorem SMWF.confirmBooking {m : SeatManager} (h : SMWF m) :
    SMWF m.confirmBooking.1 := by
  obtain ⟨h1, h2, h3, h4⟩ := h
  by_cases he : m.selectedSeats.isEmpty
  · have key : m.confirmBooking.1 = m := by
      unfold SeatManager.confirmBooking
      simp [he]
    rw [key]
    exact ⟨h1, h2, h3, h4⟩
  · have key : m.confirmBooking.1 =
        { seats := mapSeats
            (fun k v => if k ∈ m.selectedSeats then { v with status := SeatStatus.booked } else v)
            m.seats,
          selectedSeats := [] } := by
      unfold SeatManager.confirmBooking
      simp [he]
    rw [key]
    unfold SMWF
    dsimp only
    refine ⟨?_, ?_, ?_, ?_⟩
    · rw [keys_mapSeats]
      exact h1
    · exact List.nodup_nil
    · intro x hx
      simp at hx
    · intro p hp hpst
      simp only [mapSeats, List.mem_map] at hp
      obtain ⟨q, hq, heq⟩ := hp
      by_cases hc : q.1 ∈ m.selectedSeats
      · rw [← heq] at hpst
        simp only [hc, if_true] at hpst
        exact absurd hpst (by simp)
      · rw [← heq] at hpst
        simp only [hc, if_false] at hpst
        exact absurd (h4 q hq hpst) hc

theorem foldl_setSeat_wf (pairs : List (String × Seat))
    (hp : ∀ p ∈ pairs, p.2.status ≠ SeatStatus.selected) :
    ∀ l : List (String × Seat), (l.map Prod.fst).Nodup →
      (∀ p ∈ l, p.2.status ≠ SeatStatus.selected) →
      ((pairs.foldl (fun acc p => setSeat acc p.1 p.2) l).map Prod.fst).Nodup ∧
      (∀ p ∈ pairs.foldl (fun acc p => setSeat acc p.1 p.2) l,
        p.2.status ≠ SeatStatus.selected) := by
  induction pairs with
  | nil => intro l h1 h2; exact ⟨h1, h2⟩
  | cons q rest ih =>
    intro l h1 h2
    simp only [List.foldl_cons]
    refine ih (fun p hpm => hp p (List.mem_cons_of_mem q hpm)) (setSeat l q.1 q.2)
      (keys_setSeat_nodup l q.1 q.2 h1) ?_
    intro p hpm
    rcases mem_setSeat hpm with hin | heq
    · exact h2 p hin
    · rw [heq]
      exact hp q (List.mem_cons_self q rest)

theorem SMWF.initializeSeats (showtimeId : String) (rows seatsPerRow : Nat)
    (basePrice : Rat) (rnd : Nat → Nat → Bool) :
    SMWF (SeatManager.empty.initializeSeats showtimeId rows seatsPerRow basePrice rnd) := by
  have hp : ∀ p ∈ ((List.range rows).map (fun r =>
      (List.range seatsPerRow).map (fun i =>
        initSeatPair showtimeId rows basePrice rnd r (i + 1)))).flatten,
      p.2.status ≠ SeatStatus.selected := by
    intro p hpm
    simp only [List.mem_flatten, List.mem_map] at hpm
    obtain ⟨row, ⟨r, _, hrow⟩, hpin⟩ := hpm
    rw [← hrow] at hpin
    simp only [List.mem_map] at hpin
    obtain ⟨i, _, hpe⟩ := hpin
    rw [← hpe]
    unfold initSeatPair
    by_cases hb : rnd r (i + 1)
    · simp [hb]
    · simp [hb]
  have hres := foldl_setSeat_wf _ hp [] (by simp) (by simp)
  unfold SeatManager.initializeSeats SeatManager.empty SMWF
  dsimp only
  refine ⟨hres.1, List.nodup_nil, ?_, ?_⟩
  · intro x hx
    simp at hx
  · intro p hpm hpst
    exact absurd hpst (hres.2 p hpm)

/-- One SeatManager operation preserves well formedness. -/
theorem SMWF.smop {m : SeatManager} (h : SMWF m) (op : SMOp) : SMWF (op.run m) := by
  cases op with
  | select code => exact h.selectSeat code
  | deselect code => exact h.deselectSeat code
  | confirm => exact h.confirmBooking

/-- A sequence of SeatManager operations preserves well formedness. -/
theorem SMWF.runSMOps {m : SeatManager} (h : SMWF m) (ops : List SMOp) :
    SMWF (runSMOps ops m) := by
  induction ops generalizing m with
  | nil => exact h
  | cons op rest ih => exact ih (h.smop op)

/-! The total query agrees with the sum over the seats whose stored status
is selected. -/

/-- The price of the seat stored under a code, zero when absent. -/
def priceAt (m : SeatManager) (code : String) : Rat :=
  match m.getSeat code with
  | some s => s.price
  | none => 0

theorem foldl_add_price (l : List Seat) (a : Rat) :
    l.foldl (fun sum seat => sum + seat.price) a = a + (l.map Seat.price).sum := by
  induction l generalizing a with
  | nil => simp
  | cons s rest ih =>
    simp only [List.foldl_cons, List.map_cons, List.sum_cons]
    rw [ih, add_assoc]

theorem filterMap_price (m : SeatManager) (L : List String)
    (h : ∀ x ∈ L, (m.getSeat x).isSome) :
    (L.filterMap (fun code => m.getSeat code)).map Seat.price = L.map (priceAt m) := by
  induction L with
  | nil => rfl
  | cons x rest ih =>
    have hx := h x (List.mem_cons_self x rest)
    cases hg : m.getSeat x with
    | none => rw [hg] at hx; simp at hx
    | some s =>
      simp only [List.filterMap_cons, hg, List.map_cons]
      have hpx : priceAt m x = s.price := by
        unfold priceAt
        rw [hg]
      rw [hpx, ih (fun y hy => h y (List.mem_cons_of_mem x hy))]

theorem total_eq_of_wf {m : SeatManager} (h : SMWF m) :
    m.getSelectedSeatsTotal = selectedStatusTotal m := by
  obtain ⟨h1, h2, h3, h4⟩ := h
  have hsome : ∀ x ∈ m.selectedSeats, (m.getSeat x).isSome := by
    intro x hx
    have hs := h3 x hx
    unfold SeatManager.statusOf at hs
    cases hg : m.getSeat x with
    | none => rw [hg] at hs; simp at hs
    | some s => simp
  unfold SeatManager.getSelectedSeatsTotal SeatManager.getSelectedSeats
  rw [foldl_add_price, zero_add, filterMap_price m _ hsome]
  set K2 := (m.seats.filter (fun p => decide (p.2.status = SeatStatus.selected))).map Prod.fst with hK2
  have hK2nodup : K2.Nodup := by
    refine h1.sublist ?_
    exact (List.filter_sublist m.seats).map Prod.fst
  have hmem : ∀ a, a ∈ m.selectedSeats ↔ a ∈ K2 := by
    intro a
    constructor
    · intro ha
      have hs := h3 a ha
      unfold SeatManager.statusOf at hs
      cases hg : m.getSeat a with
      | none => rw [hg] at hs; simp at hs
      | some s =>
        rw [hg] at hs
        simp only [Option.map_some', Option.some_inj] at hs
        rw [hK2]
        simp only [List.mem_map, List.mem_filter]
        exact ⟨(a, s), ⟨mem_of_lookupSeat hg, by simp [hs]⟩, rfl⟩
    · intro ha
      rw [hK2] at ha
      simp only [List.mem_map, List.mem_filter] at ha
      obtain ⟨p, ⟨hpm, hps⟩, hpa⟩ := ha
      simp only [decide_eq_true_eq] at hps
      exact hpa ▸ h4 p hpm hps
  have hperm : m.selectedSeats.Perm K2 := (List.perm_ext_iff_of_nodup h2 hK2nodup).mpr hmem
  have hsum : (m.selectedSeats.map (priceAt m)).sum = (K2.map (priceAt m)).sum :=
    (hperm.map (priceAt m)).sum_eq
  rw [hsum, hK2]
  unfold selectedStatusTotal
  rw [List.map_map]
  refine congrArg List.sum ?_
  refine List.map_congr_left ?_
  intro p hpm
  have hpm2 : p ∈ m.seats := List.mem_of_mem_filter hpm
  have hlook : lookupSeat m.seats p.1 = some p.2 := lookupSeat_of_mem_nodup h1 hpm2
  show priceAt m p.1 = p.2.price
  unfold priceAt SeatManager.getSeat
  rw [hlook]

/-- C9: after initialization, every sequence of SeatManager operations
(selectSeat, deselectSeat, confirmBooking) preserves the invariant that a
seat code is in the internal selected seat set exactly when that seat is
stored with status selected, and the selected seats total query equals the
sum of the prices of exactly the seats stored with status selected. -/
theorem c9_selected_set_invariant (showtimeId : String) (rows seatsPerRow : Nat)
    (basePrice : Rat) (rnd : Nat → Nat → Bool) (ops : List SMOp) :
    (∀ code, code ∈ (runSMOps ops (SeatManager.empty.initializeSeats
        showtimeId rows seatsPerRow basePrice rnd)).selectedSeats ↔
      ∃ s, (runSMOps ops (SeatManager.empty.initializeSeats
        showtimeId rows seatsPerRow basePrice rnd)).getSeat code = some s ∧
        s.status = SeatStatus.selected) ∧
    (runSMOps ops (SeatManager.empty.initializeSeats
        showtimeId rows seatsPerRow basePrice rnd)).getSelectedSeatsTotal =
      selectedStatusTotal (runSMOps ops (SeatManager.empty.initializeSeats
        showtimeId rows seatsPerRow basePrice rnd)) := by
  have hwf : SMWF (runSMOps ops (SeatManager.empty.initializeSeats
      showtimeId rows seatsPerRow basePrice rnd)) :=
    (SMWF.initializeSeats showtimeId rows seatsPerRow basePrice rnd).runSMOps ops
  refine ⟨?_, total_eq_of_wf hwf⟩
  intro code
  rw [hwf.mem_iff code]
  unfold SeatManager.statusOf
  cases hg : (runSMOps ops (SeatManager.empty.initializeSeats
      showtimeId rows seatsPerRow basePrice rnd)).getSeat code with
  | none => simp
  | some s => simp

/-! Round trip of a successful single seat selection, and restoration of
the registry by undoing a run of successful selections. -/

theorem getSeat_selectSeat {m : SeatManager} {code : String}
    (hs : (m.selectSeat code).2 = true) (x : String) :
    (m.selectSeat code).1.getSeat x =
      (m.getSeat x).map
        (fun v => if x = code then { v with status := SeatStatus.selected } else v) := by
  have hst := (selectSeat_success_iff m code).mp hs
  unfold SeatManager.statusOf at hst
  cases hg : m.getSeat code with
  | none => rw [hg] at hst; simp at hst
  | some s =>
    rw [hg] at hst
    simp only [Option.map_some', Option.some_inj] at hst
    have key : (m.selectSeat code).1 =
        { seats := mapSeats
            (fun k v => if k = code then { v with status := SeatStatus.selected } else v)
            m.seats,
          selectedSeats := addSelected m.selectedSeats code } := by
      rw [selectSeat_success_eq hg hst]
    rw [key]
    unfold SeatManager.getSeat
    dsimp only
    rw [lookupSeat_mapSeats]

theorem select_deselect_roundtrip {m : SeatManager} {code : String}
    (h : SMWF m) (hs : (m.selectSeat code).2 = true) :
    (m.selectSeat code).1.deselectSeat code = (m, true) := by
  have hst := (selectSeat_success_iff m code).mp hs
  unfold SeatManager.statusOf at hst
  cases hg : m.getSeat code with
  | none => rw [hg] at hst; simp at hst
  | some s =>
    rw [hg] at hst
    simp only [Option.map_some', Option.some_inj] at hst
    obtain ⟨h1, h2, h3, h4⟩ := h
    have hnm : code ∉ m.selectedSeats := by
      intro hmem
      have hx := h3 code hmem
      unfold SeatManager.statusOf at hx
      rw [hg] at hx
      simp only [Option.map_some', Option.some_inj] at hx
      rw [hst] at hx
      exact SeatStatus.noConfusion hx
    have key : (m.selectSeat code).1 =
        { seats := mapSeats
            (fun k v => if k = code then { v with status := SeatStatus.selected } else v)
            m.seats,
          selectedSeats := addSelected m.selectedSeats code } := by
      rw [selectSeat_success_eq hg hst]
    have hg2 : (m.selectSeat code).1.getSeat code =
        some { s with status := SeatStatus.selected } := by
      rw [getSeat_selectSeat hs code, hg]
      simp
    have hd := deselectSeat_success_eq hg2 rfl
    rw [hd, key]
    dsimp only
    have hseats : mapSeats
        (fun k v => if k = code then { v with status := SeatStatus.available } else v)
        (mapSeats
          (fun k v => if k = code then { v with status := SeatStatus.selected } else v)
          m.seats) = m.seats := by
      rw [mapSeats_mapSeats]
      refine mapSeats_id_of _ _ ?_
      intro p hpm
      by_cases hc : p.1 = code
      · have hps : p.2 = s := by
          have hl := lookupSeat_of_mem_nodup h1 (hc ▸ hpm : (code, p.2) ∈ m.seats)
          unfold SeatManager.getSeat at hg
          rw [hg] at hl
          exact (Option.some_inj.mp hl).symm
        simp only [hc, if_true]
        rw [hps]
        cases s with
        | mk id row number t st price =>
          simp only at hst
          rw [hst]
      · simp only [hc, if_false]
    have hsel : removeSelected (addSelected m.selectedSeats code) code =
        m.selectedSeats := by
      unfold addSelected removeSelected
      rw [if_neg hnm, List.filter_append]
      have h01 : List.filter (fun x => x != code) [code] = [] := by simp
      have h02 : List.filter (fun x => x != code) m.selectedSeats = m.selectedSeats := by
        refine List.filter_eq_self.mpr ?_
        intro x hx
        simp only [bne_iff_ne, ne_eq]
        intro he
        exact hnm (he ▸ hx)
      rw [h01, h02, List.append_nil]
    rw [hseats, hsel]

/-- SeatCommand.execute of a fresh single select command, unfolded. -/
theorem execute_selectOne_false (m : SeatManager) (code : String) :
    SeatCommand.execute (SeatCommand.selectOne code false) m =
      (SeatCommand.selectOne code (m.selectSeat code).2,
       (m.selectSeat code).1, (m.selectSeat code).2) := rfl

theorem executeCommand_selectOne_success {inv : SeatSelectionInvoker}
    {m : SeatManager} {code : String} (hs : (m.selectSeat code).2 = true)
    (hb : inv.undoStack.length + 1 ≤ inv.maxHistorySize) :
    inv.executeCommand m (SeatCommand.selectOne code false) =
      ({ undoStack := SeatCommand.selectOne code true :: inv.undoStack,
         redoStack := [], maxHistorySize := inv.maxHistorySize },
       (m.selectSeat code).1, true) := by
  unfold SeatSelectionInvoker.executeCommand
  rw [execute_selectOne_false]
  dsimp only
  rw [hs]
  have hlt : ¬ (inv.maxHistorySize < inv.undoStack.length + 1) := by omega
  simp [List.length_cons, hlt]

theorem runUndos_succ (inv : SeatSelectionInvoker) (m : SeatManager) (n : Nat) :
    runUndos inv m (n + 1) =
      (((runUndos inv m n).1.undo (runUndos inv m n).2).1,
       ((runUndos inv m n).1.undo (runUndos inv m n).2).2.1) := by
  induction n generalizing inv m with
  | zero => rfl
  | succ k ih =>
    show runUndos (inv.undo m).1 (inv.undo m).2.1 (k + 1) = _
    rw [ih]
    rfl

theorem runSelects_undo_restore {codes : List String} :
    ∀ {inv : SeatSelectionInvoker} {m : SeatManager}
      {inv' : SeatSelectionInvoker} {m' : SeatManager},
      SMWF m →
      runSelects inv m codes = (inv', m', true) →
      codes.length + inv.undoStack.length ≤ inv.maxHistorySize →
      ∃ R, runUndos inv' m' codes.length =
        ({ undoStack := inv.undoStack, redoStack := R,
           maxHistorySize := inv.maxHistorySize }, m) := by
  induction codes with
  | nil =>
    intro inv m inv' m' _ hrun _
    simp only [runSelects, Prod.mk.injEq] at hrun
    refine ⟨inv.redoStack, ?_⟩
    rw [← hrun.1, ← hrun.2.1]
    rfl
  | cons code rest ih =>
    intro inv m inv' m' hwf hrun hcap
    simp only [runSelects] at hrun
    have hflag := congrArg (fun t => t.2.2) hrun
    dsimp only at hflag
    rw [Bool.and_eq_true] at hflag
    have hok : (inv.executeCommand m (SeatCommand.selectOne code false)).2.2 = true :=
      hflag.1
    have hsel : (m.selectSeat code).2 = true := by
      unfold SeatSelectionInvoker.executeCommand at hok
      rw [execute_selectOne_false] at hok
      dsimp only at hok
      cases hv : (m.selectSeat code).2 with
      | true => rfl
      | false => rw [hv] at hok; simp at hok
    simp only [List.length_cons] at hcap
    have hb : inv.undoStack.length + 1 ≤ inv.maxHistorySize := by omega
    have hexec := executeCommand_selectOne_success hsel hb
    rw [hexec] at hrun
    dsimp only at hrun
    rw [Bool.true_and] at hrun
    have hrest : runSelects
        { undoStack := SeatCommand.selectOne code true :: inv.undoStack,
          redoStack := [], maxHistorySize := inv.maxHistorySize }
        (m.selectSeat code).1 rest = (inv', m', true) := by
      rw [← hrun]
    have hwf2 : SMWF (m.selectSeat code).1 := hwf.selectSeat code
    have hcap2 : rest.length +
        (SeatCommand.selectOne code true :: inv.undoStack).length ≤
        inv.maxHistorySize := by
      simp only [List.length_cons]
      omega
    obtain ⟨R, hR⟩ := ih hwf2 hrest hcap2
    refine ⟨SeatCommand.selectOne code false :: R, ?_⟩
    show runUndos inv' m' (rest.length + 1) = _
    rw [runUndos_succ, hR]
    dsimp only
    unfold SeatSelectionInvoker.undo
    dsimp only
    have hundo : SeatCommand.undo (SeatCommand.selectOne code true)
        (m.selectSeat code).1 =
        (SeatCommand.selectOne code false, m, true) := by
      show (if true then
          let r := (m.selectSeat code).1.deselectSeat code
          (SeatCommand.selectOne code (!r.2), r.1, r.2)
        else (SeatCommand.selectOne code true, (m.selectSeat code).1, false)) = _
      rw [if_pos rfl]
      rw [select_deselect_roundtrip hwf hsel]
      rfl
    rw [hundo]
    rfl

/-- Each code of a fully successful run of single select commands was
stored available in the starting registry. -/
theorem runSelects_available {codes : List String} :
    ∀ {inv : SeatSelectionInvoker} {m : SeatManager}
      {inv' : SeatSelectionInvoker} {m' : SeatManager},
      runSelects inv m codes = (inv', m', true) →
      ∀ c ∈ codes, m.statusOf c = some SeatStatus.available := by
  induction codes with
  | nil =>
    intro inv m inv' m' _ c hc
    simp at hc
  | cons code rest ih =>
    intro inv m inv' m' hrun c hc
    simp only [runSelects] at hrun
    have hflag := congrArg (fun t => t.2.2) hrun
    dsimp only at hflag
    rw [Bool.and_eq_true] at hflag
    have hok : (inv.executeCommand m (SeatCommand.selectOne code false)).2.2 = true :=
      hflag.1
    have hsel : (m.selectSeat code).2 = true := by
      unfold SeatSelectionInvoker.executeCommand at hok
      rw [execute_selectOne_false] at hok
      dsimp only at hok
      cases hv : (m.selectSeat code).2 with
      | true => rfl
      | false => rw [hv] at hok; simp at hok
    rcases List.mem_cons.mp hc with he | hm2
    · rw [he]
      exact (selectSeat_success_iff m code).mp hsel
    · have h21 : (inv.executeCommand m (SeatCommand.selectOne code false)).2.1 =
          (m.selectSeat code).1 := by
        unfold SeatSelectionInvoker.executeCommand
        rw [execute_selectOne_false]
        dsimp only
        rw [hsel]
        simp
      rw [h21, hok, Bool.true_and] at hrun
      have hrest : runSelects
          (inv.executeCommand m (SeatCommand.selectOne code false)).1
          (m.selectSeat code).1 rest = (inv', m', true) := by
        rw [← hrun]
      have hav2 := ih hrest c hm2
      unfold SeatManager.statusOf at hav2 ⊢
      rw [getSeat_selectSeat hsel c] at hav2
      cases hg : m.getSeat c with
      | none => rw [hg] at hav2; simp at hav2
      | some v =>
        rw [hg] at hav2
        by_cases hcc : c = code
        · rw [hcc] at hav2
          simp at hav2
        · simp only [hcc, if_false, Option.map_some'] at hav2
          simpa using hav2

/-! Lemmas about the booking lifecycle state machine. -/

theorem chainConnected_append {l : List StateHistoryEntry} {e2 : StateHistoryEntry}
    (hc : chainConnected l = true)
    (he : l.getLast?.map StateHistoryEntry.toState = some e2.fromState) :
    chainConnected (l ++ [e2]) = true := by
  induction l with
  | nil => simp at he
  | cons e1 tail ih =>
    cases tail with
    | nil =>
      simp only [List.getLast?_singleton, Option.map_some', Option.some_inj] at he
      simp [chainConnected, he]
    | cons t1 ts =>
      simp only [chainConnected, Bool.and_eq_true] at hc
      have he2 : (t1 :: ts).getLast?.map StateHistoryEntry.toState =
          some e2.fromState := by
        rw [← he]
        simp [List.getLast?_cons_cons]
      have := ih hc.2 he2
      simp only [List.cons_append, chainConnected, Bool.and_eq_true] at this ⊢
      exact ⟨hc.1, this⟩

theorem historyWF_setState {b : BookingContext} (h : historyWF b) (s : BState) :
    historyWF (b.setState s) := by
  obtain ⟨h1, h2, h3⟩ := h
  unfold BookingContext.setState historyWF
  dsimp only
  refine ⟨?_, ?_, ?_⟩
  · cases hl : b.stateHistory with
    | nil => rw [hl] at h1; simp at h1
    | cons x xs =>
      rw [hl] at h1
      simp only [List.head?_cons] at h1
      simp [h1]
  · exact chainConnected_append h2 h3
  · simp

theorem historyWF_fields {b bb : BookingContext} (h : historyWF b)
    (hs : bb.state = b.state) (hh : bb.stateHistory = b.stateHistory) :
    historyWF bb := by
  unfold historyWF at h ⊢
  rw [hs, hh]
  exact h

theorem historyWF_op {b : BookingContext} (h : historyWF b) (op : BookingOp) :
    historyWF (op.run b) := by
  cases op with
  | addSeat code price =>
    show historyWF (b.addSeat code price)
    unfold BookingContext.addSeat
    by_cases hm : b.state.canModify
    · simp only [hm, if_true]
      exact h
    · simp only [hm, if_false]
      exact h
  | proceedToPayment =>
    show historyWF b.proceedToPayment
    unfold BookingContext.proceedToPayment
    cases b.state <;> first
      | exact h
      | (by_cases hs : b.seats.isEmpty
         · simp only [hs, if_true]; exact h
         · simp only [hs, if_false]; exact historyWF_setState h _)
  | pay amount =>
    show historyWF (b.pay amount)
    unfold BookingContext.pay
    cases hb : b.state <;> first
      | exact h
      | (by_cases hlt : amount < b.totalAmount
         · simp only [hlt, if_true]; exact h
         · simp only [hlt, if_false]
           exact historyWF_setState
             (@historyWF_fields b
               { customerName := b.customerName, movieTitle := b.movieTitle,
                 seats := b.seats, totalAmount := b.totalAmount,
                 paidAmount := amount, transactionId := some "TXN",
                 state := BState.pending, stateHistory := b.stateHistory }
               h hb.symm rfl) BState.paid)
  | confirm =>
    show historyWF b.confirm
    unfold BookingContext.confirm
    cases b.state <;> first
      | exact h
      | exact historyWF_setState h _
  | complete =>
    show historyWF b.complete
    unfold BookingContext.complete
    cases b.state <;> first
      | exact h
      | exact historyWF_setState h _
  | cancel =>
    show historyWF b.cancel
    unfold BookingContext.cancel
    cases b.state <;> first
      | exact h
      | exact historyWF_setState h _
  | refund =>
    show historyWF b.refund
    unfold BookingContext.refund
    cases b.state <;> first
      | exact h
      | exact historyWF_setState h _

theorem historyWF_runBookingOps (ops : List BookingOp) {b : BookingContext}
    (h : historyWF b) : historyWF (runBookingOps ops b) := by
  induction ops generalizing b with
  | nil => exact h
  | cons op rest ih => exact ih (historyWF_op h op)

theorem historyWF_mk (customer movie : String) :
    historyWF (mkBookingContext customer movie) :=
  ⟨rfl, rfl, rfl⟩

/-! Concrete sample data used by witnesses and counterexamples. -/

/-- A Pending booking with one 50000 line item. -/
def c1b : BookingContext :=
  { customerName := "Ani", movieTitle := "Film", seats := ["A1"],
    totalAmount := 50000, paidAmount := 0, transactionId := none,
    state := BState.pending,
    stateHistory := [{ fromState := "Initial", toState := "Draft" },
                     { fromState := "Draft", toState := "Pending" }] }

/-- A Confirmed booking with paid amount 3. -/
def c2b : BookingContext :=
  { customerName := "Ani", movieTitle := "Film", seats := ["A1"],
    totalAmount := 3, paidAmount := 3, transactionId := some "TXN",
    state := BState.confirmed,
    stateHistory := [{ fromState := "Initial", toState := "Draft" }] }

/-- A Confirmed booking with paid amount 0. -/
def c2bw : BookingContext :=
  { customerName := "Ani", movieTitle := "Film", seats := ["A1"],
    totalAmount := 0, paidAmount := 0, transactionId := some "TXN",
    state := BState.confirmed,
    stateHistory := [{ fromState := "Initial", toState := "Draft" }] }

/-- A registry with the single available seat A1. -/
def c3m : SeatManager :=
  ⟨[("A1", { id := "S-A1", row := "A", number := 1, type := SeatType.regular,
             status := SeatStatus.available, price := 50000 })], []⟩

/-- An invoker whose redo stack holds one replayable command. -/
def c3inv : SeatSelectionInvoker :=
  ⟨[], [SeatCommand.selectOne "A1" false], 50⟩

/-- A registry where A1 is available but B1 is already booked. -/
def c4m : SeatManager :=
  ⟨[("A1", { id := "S-A1", row := "A", number := 1, type := SeatType.regular,
             status := SeatStatus.available, price := 50000 }),
    ("B1", { id := "S-B1", row := "B", number := 1, type := SeatType.regular,
             status := SeatStatus.booked, price := 50000 })], []⟩

/-- A fresh invoker with the default history bound. -/
def c4inv : SeatSelectionInvoker := ⟨[], [], 50⟩

/-- The fresh batch command requesting A1 and B1. -/
def c4cmd : SeatCommand := SeatCommand.selectMany ["A1", "B1"] [] false

/-- A registry with the two available seats A1 and B1. -/
def c5m : SeatManager :=
  ⟨[("A1", { id := "S-A1", row := "A", number := 1, type := SeatType.regular,
             status := SeatStatus.available, price := 50000 }),
    ("B1", { id := "S-B1", row := "B", number := 1, type := SeatType.regular,
             status := SeatStatus.available, price := 50000 })], []⟩

/-- A fresh invoker whose history is bounded at one entry. -/
def c5inv1 : SeatSelectionInvoker := ⟨[], [], 1⟩

/-- A fresh invoker with the default history bound. -/
def c5inv : SeatSelectionInvoker := ⟨[], [], 50⟩

/-- A Completed booking. -/
def c6b : BookingContext :=
  { customerName := "Ani", movieTitle := "Film", seats := ["A1"],
    totalAmount := 50000, paidAmount := 50000, transactionId := some "TXN",
    state := BState.completed,
    stateHistory := [{ fromState := "Initial", toState := "Draft" }] }

/-- A registry with the single available seat A1. -/
def c8m : SeatManager :=
  ⟨[("A1", { id := "S-A1", row := "A", number := 1, type := SeatType.regular,
             status := SeatStatus.available, price := 50000 })], []⟩

/-! The claims. -/

/-- C1: for a Pending booking, pay with an amount below the running total
leaves the state Pending and the paid amount unchanged; pay with an amount
at least the running total transitions to Paid, records the amount as the
paid amount and sets a transaction reference. -/
theorem c1_pending_pay (b : BookingContext) (amount : Rat)
    (hp : b.state = BState.pending) :
    (amount < b.totalAmount →
      (b.pay amount).state = BState.pending ∧
      (b.pay amount).paidAmount = b.paidAmount) ∧
    (b.totalAmount ≤ amount →
      (b.pay amount).state = BState.paid ∧
      (b.pay amount).paidAmount = amount ∧
      (b.pay amount).transactionId.isSome = true) := by
  have hpay : b.pay amount = (if amount < b.totalAmount then b
      else ({ b with
          paidAmount := amount,
          transactionId := some "TXN" }).setState BState.paid) := by
    unfold BookingContext.pay
    rw [hp]
  constructor
  · intro hlt
    rw [hpay, if_pos hlt]
    exact ⟨hp, rfl⟩
  · intro hge
    have hnlt : ¬ amount < b.totalAmount := not_lt.mpr hge
    rw [hpay, if_neg hnlt]
    exact ⟨rfl, rfl, rfl⟩

/-- C1 witness: the concrete Pending booking c1b with total 50000, paying
40000 and then 60000. -/
theorem c1_pending_pay_witness :
    (c1b.state = BState.pending ∧ (40000 : Rat) < c1b.totalAmount ∧
      ((c1b.pay 40000).state = BState.pending ∧
       (c1b.pay 40000).paidAmount = c1b.paidAmount)) ∧
    (c1b.totalAmount ≤ (60000 : Rat) ∧
      ((c1b.pay 60000).state = BState.paid ∧
       (c1b.pay 60000).paidAmount = 60000 ∧
       (c1b.pay 60000).transactionId.isSome = true)) :=
  ⟨⟨rfl, by decide, (c1_pending_pay c1b 40000 rfl).1 (by decide)⟩,
   ⟨by decide, (c1_pending_pay c1b 60000 rfl).2 (by decide)⟩⟩

/-- C2 counterexample: the Confirmed booking c2b with paid amount 3: refund
does transition to Cancelled, but the refund amount it computes is
Math.round(3 times 0.8) = Math.round(2.4) = 2, which is not exactly 80
percent of 3 (that would be 2.4). -/
theorem c2_counterexample :
    c2b.state = BState.confirmed ∧
    (c2b.refund).state = BState.cancelled ∧
    confirmedRefundAmount c2b.paidAmount = 2 ∧
    ((confirmedRefundAmount c2b.paidAmount : Rat) ≠ c2b.paidAmount * (4 / 5)) := by
  have h2 : confirmedRefundAmount ((3 : Rat)) = 2 := by
    unfold confirmedRefundAmount jsRound
    have h29 : (3 : Rat) * (4 / 5) + 1 / 2 = 29 / 10 := by norm_num
    rw [h29, Int.floor_eq_iff]
    norm_num
  have hpa : c2b.paidAmount = (3 : Rat) := rfl
  refine ⟨rfl, rfl, ?_, ?_⟩
  · rw [hpa, h2]
  · rw [hpa, h2]
    norm_num

/-- C2 (amended): refund from Confirmed transitions the booking to Cancelled
and computes Math.round of 0.8 times the paid amount, which is exactly 80
percent of the paid amount whenever 0.8 times the paid amount is a whole
number (in particular for every paid amount that is a multiple of 5);
refund from Paid transitions to Cancelled and computes exactly the full
(100 percent) paid amount. -/
theorem c2_refund_amount (b : BookingContext) :
    (b.state = BState.confirmed →
      (b.refund).state = BState.cancelled ∧
      ∀ n : Int, b.paidAmount * (4 / 5) = (n : Rat) →
        confirmedRefundAmount b.paidAmount = n) ∧
    (b.state = BState.paid →
      (b.refund).state = BState.cancelled ∧
      paidRefundAmount b.paidAmount = b.paidAmount) := by
  constructor
  · intro hc
    constructor
    · unfold BookingContext.refund
      rw [hc]
      rfl
    · intro n hn
      unfold confirmedRefundAmount jsRound
      rw [hn, Int.floor_int_add]
      have hh : ⌊(1 : Rat) / 2⌋ = 0 := by
        rw [Int.floor_eq_iff]
        norm_num
      rw [hh, add_zero]
  · intro hp
    refine ⟨?_, rfl⟩
    unfold BookingContext.refund
    rw [hp]
    rfl

/-- C2 witness: the Confirmed booking c2bw with paid amount 0, for which
0.8 times the paid amount is the whole number 0 and the refund amount is
exactly that. -/
theorem c2_refund_amount_witness :
    c2bw.state = BState.confirmed ∧
    (c2bw.refund).state = BState.cancelled ∧
    confirmedRefundAmount c2bw.paidAmount = 0 :=
  ⟨rfl, ((c2_refund_amount c2bw).1 rfl).1,
   ((c2_refund_amount c2bw).1 rfl).2 0 (by simp [c2bw])⟩

/-- C3 counterexample: with a replayable command sitting on the redo stack,
executing a command that fails (selecting the absent seat Z9) leaves the
redo stack non empty, and the immediately following redo succeeds, against
the claim that any executeCommand empties the redo stack. -/
theorem c3_counterexample :
    (c3inv.executeCommand c3m (SeatCommand.selectOne "Z9" false)).1.redoStack ≠ [] ∧
    ((c3inv.executeCommand c3m (SeatCommand.selectOne "Z9" false)).1.redo
      (c3inv.executeCommand c3m (SeatCommand.selectOne "Z9" false)).2.1).2.2 = true := by
  decide

/-- C3 (amended): after an executeCommand whose command applied successfully
the redo stack is empty and an immediately following redo returns false;
a failing executeCommand leaves the redo stack untouched. -/
theorem c3_success_clears_redo (inv : SeatSelectionInvoker) (m : SeatManager)
    (c : SeatCommand) (h : (inv.executeCommand m c).2.2 = true) :
    (inv.executeCommand m c).1.redoStack = [] ∧
    ((inv.executeCommand m c).1.redo (inv.executeCommand m c).2.1).2.2 = false := by
  cases hr : (c.execute m).2.2 with
  | false => simp [SeatSelectionInvoker.executeCommand, hr] at h
  | true =>
    have hred : (inv.executeCommand m c).1.redoStack = [] := by
      simp [SeatSelectionInvoker.executeCommand, hr]
    refine ⟨hred, ?_⟩
    unfold SeatSelectionInvoker.redo
    rw [hred]

/-- C3 witness: a successful selection on the concrete registry c3m leaves
an empty redo stack. -/
theorem c3_success_clears_redo_witness :
    (c3inv.executeCommand c3m (SeatCommand.selectOne "A1" false)).2.2 = true ∧
    (c3inv.executeCommand c3m (SeatCommand.selectOne "A1" false)).1.redoStack = [] :=
  ⟨by decide,
   (c3_success_clears_redo c3inv c3m (SeatCommand.selectOne "A1" false) (by decide)).1⟩

/-- C4 counterexample: the batch over A1 (available) and B1 (booked)
partially succeeds: the registry changes and the command records the one
selected seat, yet its execute returns false and executeCommand does not
push it onto the undo stack. -/
theorem c4_counterexample :
    (c4cmd.execute c4m).2.1 ≠ c4m ∧
    (c4cmd.execute c4m).1 = SeatCommand.selectMany ["A1", "B1"] ["A1"] true ∧
    (c4cmd.execute c4m).2.2 = false ∧
    (c4inv.executeCommand c4m c4cmd).1.undoStack = [] ∧
    (c4inv.executeCommand c4m c4cmd).2.2 = false := by
  decide

/-- C4 (amended): a fresh batch command applied through execute reports
success exactly when the full requested count matched, and when it reports
failure (in particular under partial success) executeCommand leaves the
invoker unchanged (nothing is pushed onto the undo stack) and returns
false, while the registry keeps the partial mutation. -/
theorem c4_partial_batch (inv : SeatSelectionInvoker) (m : SeatManager)
    (codes : List String) :
    (((SeatCommand.selectMany codes [] false).execute m).2.2 = true ↔
      (selectManyLoop m codes).2.length = codes.length) ∧
    (((SeatCommand.selectMany codes [] false).execute m).2.2 = false →
      (inv.executeCommand m (SeatCommand.selectMany codes [] false)).1 = inv ∧
      (inv.executeCommand m (SeatCommand.selectMany codes [] false)).2.2 = false ∧
      (inv.executeCommand m (SeatCommand.selectMany codes [] false)).2.1 =
        (selectManyLoop m codes).1) := by
  have hex : (SeatCommand.selectMany codes [] false).execute m =
      (SeatCommand.selectMany codes (selectManyLoop m codes).2 true,
       (selectManyLoop m codes).1,
       decide ((selectManyLoop m codes).2.length = codes.length)) := rfl
  constructor
  · rw [hex]
    simp
  · intro hf
    unfold SeatSelectionInvoker.executeCommand
    rw [hex] at hf ⊢
    dsimp only at hf ⊢
    rw [hf]
    simp

/-- C4 witness: the concrete partial batch over c4m is reported failed and
is not pushed: the invoker is unchanged. -/
theorem c4_partial_batch_witness :
    ((SeatCommand.selectMany ["A1", "B1"] [] false).execute c4m).2.2 = false ∧
    (c4inv.executeCommand c4m (SeatCommand.selectMany ["A1", "B1"] [] false)).1 = c4inv :=
  ⟨by decide, ((c4_partial_batch c4inv c4m ["A1", "B1"]).2 (by decide)).1⟩

/-- C5 counterexample: with the invoker history bound set to one entry, two
successful single seat selects followed by two undo calls do not restore
the registry: the first select was evicted from the undo stack and stays
applied. -/
theorem c5_counterexample :
    (runSelects c5inv1 c5m ["A1", "B1"]).2.2 = true ∧
    (runUndos (runSelects c5inv1 c5m ["A1", "B1"]).1
      (runSelects c5inv1 c5m ["A1", "B1"]).2.1 2).2 ≠ c5m := by
  decide

/-- C5 (amended): for every well formed registry with an empty selected set
and every sequence of fresh single seat select commands that all succeed
through executeCommand, provided the sequence fits into the remaining undo
history capacity (no eviction), the same number of undo calls restores the
registry exactly to its pre sequence state: the selected set is empty again
and each selected code is stored available with its original record (price
and category included). -/
theorem c5_select_undo_roundtrip (codes : List String)
    (inv inv2 : SeatSelectionInvoker) (m m2 : SeatManager)
    (hwf : SMWF m) (hsel0 : m.selectedSeats = [])
    (hrun : runSelects inv m codes = (inv2, m2, true))
    (hcap : codes.length + inv.undoStack.length ≤ inv.maxHistorySize) :
    (runUndos inv2 m2 codes.length).2 = m ∧
    (runUndos inv2 m2 codes.length).2.selectedSeats = [] ∧
    (∀ c ∈ codes, ∃ s, (runUndos inv2 m2 codes.length).2.getSeat c = some s ∧
      s.status = SeatStatus.available) := by
  obtain ⟨R, hR⟩ := runSelects_undo_restore hwf hrun hcap
  have hm : (runUndos inv2 m2 codes.length).2 = m := by rw [hR]
  refine ⟨hm, by rw [hm, hsel0], ?_⟩
  intro c hc
  have hav := runSelects_available hrun c hc
  unfold SeatManager.statusOf at hav
  rw [hm]
  cases hg : m.getSeat c with
  | none => rw [hg] at hav; simp at hav
  | some s =>
    rw [hg] at hav
    simp only [Option.map_some', Option.some_inj] at hav
    exact ⟨s, rfl, hav⟩

/-- C5 witness: one successful select of A1 on the concrete registry c5m,
followed by one undo, restores c5m. -/
theorem c5_select_undo_roundtrip_witness :
    SMWF c5m ∧ c5m.selectedSeats = [] ∧
    runSelects c5inv c5m ["A1"] =
      ((runSelects c5inv c5m ["A1"]).1, (runSelects c5inv c5m ["A1"]).2.1, true) ∧
    (runUndos (runSelects c5inv c5m ["A1"]).1
      (runSelects c5inv c5m ["A1"]).2.1 1).2 = c5m :=
  ⟨by decide, rfl, by decide,
   (c5_select_undo_roundtrip ["A1"] c5inv (runSelects c5inv c5m ["A1"]).1 c5m
     (runSelects c5inv c5m ["A1"]).2.1 (by decide) rfl (by decide) (by decide)).1⟩

/-- C6: in the terminal Completed and Cancelled states every operation
(addSeat, proceedToPayment, pay, confirm, complete, cancel, refund) is a
no-op: the whole booking record, and with it the state, the line items,
the running total, the paid amount and the state transition log, is
unchanged. -/
theorem c6_terminal_noop (b : BookingContext)
    (h : b.state = BState.completed ∨ b.state = BState.cancelled) :
    (∀ code price, b.addSeat code price = b) ∧
    b.proceedToPayment = b ∧
    (∀ amount, b.pay amount = b) ∧
    b.confirm = b ∧ b.complete = b ∧ b.cancel = b ∧ b.refund = b := by
  have hcm : b.state.canModify = false := by
    rcases h with h | h <;> rw [h] <;> rfl
  refine ⟨?_, ?_, ?_, ?_, ?_, ?_, ?_⟩
  · intro code price
    unfold BookingContext.addSeat
    rw [hcm]
    rfl
  · unfold BookingContext.proceedToPayment
    rcases h with h | h <;> rw [h]
  · intro amount
    unfold BookingContext.pay
    rcases h with h | h <;> rw [h]
  · unfold BookingContext.confirm
    rcases h with h | h <;> rw [h]
  · unfold BookingContext.complete
    rcases h with h | h <;> rw [h]
  · unfold BookingContext.cancel
    rcases h with h | h <;> rw [h]
  · unfold BookingContext.refund
    rcases h with h | h <;> rw [h]

/-- C6 witness: the concrete Completed booking c6b ignores cancel, refund
and addSeat. -/
theorem c6_terminal_noop_witness :
    c6b.state = BState.completed ∧
    c6b.cancel = c6b ∧ c6b.refund = c6b ∧ c6b.addSeat "C1" 100 = c6b :=
  ⟨rfl, (c6_terminal_noop c6b (Or.inl rfl)).2.2.2.2.2.1,
   (c6_terminal_noop c6b (Or.inl rfl)).2.2.2.2.2.2,
   (c6_terminal_noop c6b (Or.inl rfl)).1 "C1" 100⟩

/-- C7: outside Draft, addSeat changes neither the line item list nor the
running total nor the state; in Draft it appends the line item and, for a
non negative price, never decreases the running total. -/
theorem c7_addSeat_frame (b : BookingContext) (code : String) (price : Rat) :
    (b.state ≠ BState.draft →
      (b.addSeat code price).seats = b.seats ∧
      (b.addSeat code price).totalAmount = b.totalAmount ∧
      (b.addSeat code price).state = b.state) ∧
    (b.state = BState.draft →
      (b.addSeat code price).seats = b.seats ++ [code] ∧
      (0 ≤ price → b.totalAmount ≤ (b.addSeat code price).totalAmount)) := by
  constructor
  · intro hne
    have hcm : b.state.canModify = false := by
      cases hb : b.state
      · exact absurd hb hne
      all_goals rfl
    unfold BookingContext.addSeat
    rw [hcm]
    exact ⟨rfl, rfl, rfl⟩
  · intro hd
    have hcm : b.state.canModify = true := by rw [hd]; rfl
    unfold BookingContext.addSeat
    rw [hcm]
    refine ⟨rfl, fun hp => ?_⟩
    show b.totalAmount ≤ b.totalAmount + price
    exact le_add_of_nonneg_right hp

/-- C7 witness: the Pending booking c1b ignores addSeat, and a Draft
booking appends it. -/
theorem c7_addSeat_frame_witness :
    (c1b.state ≠ BState.draft ∧
      ((c1b.addSeat "B2" 100).seats = c1b.seats ∧
       (c1b.addSeat "B2" 100).totalAmount = c1b.totalAmount ∧
       (c1b.addSeat "B2" 100).state = c1b.state)) ∧
    ((mkBookingContext "Ani" "Film").state = BState.draft ∧
      ((mkBookingContext "Ani" "Film").addSeat "B2" 100).seats =
        (mkBookingContext "Ani" "Film").seats ++ ["B2"]) :=
  ⟨⟨by decide, (c7_addSeat_frame c1b "B2" 100).1 (by decide)⟩,
   ⟨rfl, ((c7_addSeat_frame (mkBookingContext "Ani" "Film") "B2" 100).2 rfl).1⟩⟩

/-- C8: selectSeat succeeds exactly when a seat with that code is stored
available, in which case its status becomes selected; every failure
(including an absent code) returns false with the registry unchanged, so
selecting the same code twice in a row returns false the second time. -/
theorem c8_select_safety (m : SeatManager) (code : String) :
    ((m.selectSeat code).2 = true ↔
      ∃ s, m.getSeat code = some s ∧ s.status = SeatStatus.available) ∧
    ((m.selectSeat code).2 = true →
      (m.selectSeat code).1.statusOf code = some SeatStatus.selected) ∧
    ((m.selectSeat code).2 = false → (m.selectSeat code).1 = m) ∧
    ((m.selectSeat code).2 = true →
      ((m.selectSeat code).1.selectSeat code).2 = false) := by
  have hsel : ∀ hs : (m.selectSeat code).2 = true,
      (m.selectSeat code).1.statusOf code = some SeatStatus.selected := by
    intro hs
    have hst := (selectSeat_success_iff m code).mp hs
    unfold SeatManager.statusOf at hst ⊢
    rw [getSeat_selectSeat hs code]
    cases hg : m.getSeat code with
    | none => rw [hg] at hst; simp at hst
    | some s => simp
  refine ⟨?_, hsel, fun h => selectSeat_fail_eq h, ?_⟩
  · rw [selectSeat_success_iff]
    unfold SeatManager.statusOf
    cases hg : m.getSeat code with
    | none => simp
    | some s => simp
  · intro hs
    cases hb : ((m.selectSeat code).1.selectSeat code).2 with
    | false => rfl
    | true =>
      have h2 := (selectSeat_success_iff _ code).mp hb
      rw [hsel hs] at h2
      simp at h2

/-- C8 witness: on the concrete registry c8m, selecting A1 succeeds, the
second select of A1 fails, and selecting the absent Z9 fails without
mutation. -/
theorem c8_select_safety_witness :
    (c8m.selectSeat "A1").2 = true ∧
    ((c8m.selectSeat "A1").1.selectSeat "A1").2 = false ∧
    (c8m.selectSeat "Z9").2 = false ∧
    (c8m.selectSeat "Z9").1 = c8m :=
  ⟨by decide, (c8_select_safety c8m "A1").2.2.2 (by decide),
   by decide, (c8_select_safety c8m "Z9").2.2.1 (by decide)⟩

/-- C10: for every operation sequence on a freshly constructed booking, the
state transition log is a connected chain: its first entry records the
transition from the label Initial to Draft (written at construction), and
every later entry starts from the state the previous entry reached. -/
theorem c10_history_chain (customer movie : String) (ops : List BookingOp) :
    (runBookingOps ops (mkBookingContext customer movie)).stateHistory.head? =
      some { fromState := "Initial", toState := "Draft" } ∧
    chainConnected
      (runBookingOps ops (mkBookingContext customer movie)).stateHistory = true := by
  have h := historyWF_runBookingOps ops (historyWF_mk customer movie)
  exact ⟨h.1, h.2.1⟩

end TiketingBioskop
